import Mathlib

/-!
# HashGuardian — verified shallow embedding of `hasher.py`

This file embeds the core of the HashGuardian text-integrity checker
(`src/hasher.py`) in Lean 4 and proves the specified properties of its
digest engine, snapshot store and snapshot/verification service.

Modelling conventions:
* The cryptographic primitive (`hashlib.new(a).update(bytes).hexdigest()`)
  is an external library, not repository code; it is abstracted as a
  parameter `H : HashFn` mapping an algorithm name and the UTF-8 byte
  sequence of the input text to a hex-digest string.
* The vault file on disk is modelled by `FS`: `file = none` means the
  backing file does not exist, `file = some v` means it holds the
  serialized mapping `v`; `writes` counts how many times `save_vault`
  has rewritten the file, so "no persist happened" is expressible.
* A Python `dict` is modelled as an association list with unique keys;
  `d[k] = v` keeps the position of an existing key and appends a new
  one (`dictInsert`), `del d[k]` removes the single binding (`dictErase`).
* `datetime.datetime.now()` is nondeterministic input, passed to
  `save_hash` as an explicit `timestamp` argument.
* A raised `ValueError` is modelled as `Except.error` carrying the
  message string.
-/

namespace HashGuardian

/-- `ALGORITHMS` from hasher.py: the closed set of supported algorithms. -/
def ALGORITHMS : List String := ["md5", "sha1", "sha256", "sha512"]

/-- The UTF-8 byte values of a string, modelling `text.encode("utf-8")`. -/
def utf8Bytes (s : String) : List Nat :=
  (s.data.map (fun c => (String.utf8EncodeChar c).map UInt8.toNat)).flatten

/-- Abstract digest primitive: algorithm name and input bytes to hex digest,
modelling `hashlib.new(algorithm)` / `update` / `hexdigest`. -/
def HashFn : Type := String → List Nat → String

/-- A single-quote character as a string (code point 39), used in the
textual messages of hasher.py. -/
def squote : String :=
  String.singleton (Char.ofNat 39)

/-- Surround a string with single quotes, as Python f-string interpolation
renders string list elements and as the f-strings of hasher.py quote labels. -/
def quoted (s : String) : String :=
  squote ++ s ++ squote

/-- The message of the `ValueError` raised by `compute_hash`:
the f-string rendering of `Unsupported algorithm. Choose from: {ALGORITHMS}`. -/
def unsupportedMsg : String :=
  "Unsupported algorithm. Choose from: [" ++
    String.intercalate ", " (ALGORITHMS.map quoted) ++ "]"

/-- `compute_hash(text, algorithm)`: reject algorithms outside `ALGORITHMS`,
otherwise return the digest of the UTF-8 encoding of `text`. -/
def compute_hash (H : HashFn) (text : String) (algorithm : String) :
    Except String String :=
  if algorithm ∉ ALGORITHMS then Except.error unsupportedMsg
  else Except.ok (H algorithm (utf8Bytes text))

/-- `compute_all_hashes(text)`: the dict comprehension
`{algo: compute_hash(text, algo) for algo in ALGORITHMS}`. -/
def compute_all_hashes (H : HashFn) (text : String) :
    Except String (List (String × String)) :=
  ALGORITHMS.mapM (fun algo => (compute_hash H text algo).map (fun h => (algo, h)))

/-- One vault entry, as built by `save_hash`. -/
structure Entry where
  label : String
  algorithm : String
  hash : String
  length : Nat
  timestamp : String
deriving DecidableEq

/-- The vault mapping label → entry (a Python dict: an insertion-ordered
association list whose keys are unique in every reachable state). -/
abbrev Vault := List (String × Entry)

/-- The backing storage: the vault file (absent or present with parsed
contents) plus a count of completed writes. -/
structure FS where
  file : Option Vault
  writes : Nat
deriving DecidableEq

/-- `load_vault()`: the empty mapping when the file does not exist,
otherwise the deserialized contents. -/
def load_vault (fs : FS) : Vault :=
  fs.file.getD []

/-- `save_vault(vault)`: rewrite the whole file with the serialized mapping. -/
def save_vault (v : Vault) (fs : FS) : FS :=
  { file := some v, writes := fs.writes + 1 }

/-- Python dict lookup `d[label]` / membership `label in d`: find the binding
of the key (string equality). -/
def dictFind (k : String) : Vault → Option Entry
  | [] => none
  | p :: rest => if p.1 = k then some p.2 else dictFind k rest

/-- Python dict assignment `d[label] = entry`: replace in place when the key
is present, append otherwise. -/
def dictInsert (k : String) (e : Entry) : Vault → Vault
  | [] => [(k, e)]
  | p :: rest => if p.1 = k then (k, e) :: rest else p :: dictInsert k e rest

/-- Python `del d[label]`: drop the single binding of the key. -/
def dictErase (k : String) : Vault → Vault
  | [] => []
  | p :: rest => if p.1 = k then rest else p :: dictErase k rest

/-- `save_hash(label, text, algorithm)`: load the vault, build the entry
(computing the digest — a raised error leaves the file untouched), store it
under `label` and persist. Returns the entry and the new storage state. -/
def save_hash (H : HashFn) (label text algorithm timestamp : String) (fs : FS) :
    Except String Entry × FS :=
  let vault := load_vault fs
  match compute_hash H text algorithm with
  | Except.error e => (Except.error e, fs)
  | Except.ok h =>
      let entry : Entry :=
        { label := label, algorithm := algorithm, hash := h,
          length := text.length, timestamp := timestamp }
      (Except.ok entry, save_vault (dictInsert label entry vault) fs)

/-- The structured result of `verify_text`: either the two-field
`NOT_FOUND` dict or the full nine-field report dict. -/
inductive VerifyResult where
  | notFound (status : String) (message : String)
  | checked (status : String) (label : String) (algorithm : String)
      (original_hash : String) (current_hash : String)
      (original_length : Nat) (current_length : Nat)
      (saved_at : String) (is_intact : Bool)
deriving DecidableEq

/-- `verify_text(label, text)`: load the vault; absent label yields the
`NOT_FOUND` result, otherwise recompute with the entry's stored algorithm
and compare hex strings exactly. -/
def verify_text (H : HashFn) (label text : String) (fs : FS) :
    Except String VerifyResult :=
  let vault := load_vault fs
  match dictFind label vault with
  | none => Except.ok (VerifyResult.notFound "NOT_FOUND"
      ("No snapshot found for label " ++ quoted label))
  | some entry =>
      match compute_hash H text entry.algorithm with
      | Except.error e => Except.error e
      | Except.ok current =>
          let intact := current == entry.hash
          Except.ok (VerifyResult.checked
            (if intact then "INTACT" else "MODIFIED")
            label entry.algorithm entry.hash current
            entry.length text.length entry.timestamp intact)

/-- The structured result of `compare_texts`. -/
structure CompareResult where
  algorithm : String
  hash_1 : String
  hash_2 : String
  identical : Bool
  length_1 : Nat
  length_2 : Nat
deriving DecidableEq

/-- `compare_texts(text1, text2, algorithm)`: hash both texts under the one
chosen algorithm and compare directly, without touching the vault. -/
def compare_texts (H : HashFn) (text1 text2 algorithm : String) :
    Except String CompareResult :=
  match compute_hash H text1 algorithm with
  | Except.error e => Except.error e
  | Except.ok hash1 =>
      match compute_hash H text2 algorithm with
      | Except.error e => Except.error e
      | Except.ok hash2 =>
          Except.ok { algorithm := algorithm, hash_1 := hash1, hash_2 := hash2,
                      identical := hash1 == hash2,
                      length_1 := text1.length, length_2 := text2.length }

/-- `compare_texts` with the storage state threaded through explicitly: the
source function neither reads nor writes the vault file, so the state is
returned unchanged. -/
def compare_texts_st (H : HashFn) (text1 text2 algorithm : String) (fs : FS) :
    Except String CompareResult × FS :=
  (compare_texts H text1 text2 algorithm, fs)

/-- `list_snapshots()`: `list(vault.values())`. -/
def list_snapshots (fs : FS) : List Entry :=
  (load_vault fs).map Prod.snd

/-- `delete_snapshot(label)`: load; when present, delete and persist and
return true; otherwise return false without writing. -/
def delete_snapshot (label : String) (fs : FS) : Bool × FS :=
  let vault := load_vault fs
  if (dictFind label vault).isSome then
    (true, save_vault (dictErase label vault) fs)
  else (false, fs)

/-- The keys of a vault, in order. -/
def keys (v : Vault) : List String :=
  v.map Prod.fst

/-- Storage state before first use: no backing file. -/
def emptyFS : FS :=
  { file := none, writes := 0 }

/-- The arguments of one `save_hash` call. -/
structure SaveArgs where
  label : String
  text : String
  algorithm : String
  timestamp : String
deriving DecidableEq

/-- One store-mutating service call: a save or a delete. -/
inductive Op where
  | save (args : SaveArgs)
  | del (label : String)
deriving DecidableEq

/-- Run a sequence of save/delete calls, threading the storage state. -/
def runOps (H : HashFn) : List Op → FS → FS
  | [], fs => fs
  | Op.save s :: rest, fs =>
      runOps H rest (save_hash H s.label s.text s.algorithm s.timestamp fs).2
  | Op.del l :: rest, fs => runOps H rest (delete_snapshot l fs).2

/-- The set of labels saved and not deleted afterwards: each save adds its
label, each delete removes the label. -/
def liveLabels : List Op → Finset String → Finset String
  | [], acc => acc
  | Op.save s :: rest, acc => liveLabels rest (insert s.label acc)
  | Op.del l :: rest, acc => liveLabels rest (acc.erase l)

/-- A save call names a supported algorithm; a delete always qualifies. -/
def opAlgOk : Op → Prop
  | Op.save s => s.algorithm ∈ ALGORITHMS
  | Op.del _ => True

instance : DecidablePred opAlgOk := fun op => by
  cases op <;> (dsimp [opAlgOk]; infer_instance)

/-! ### Dictionary lemmas -/

theorem keys_nil : keys ([] : Vault) = [] := rfl

theorem keys_cons (p : String × Entry) (v : Vault) :
    keys (p :: v) = p.1 :: keys v := rfl

theorem dictFind_dictInsert_self (k : String) (e : Entry) (v : Vault) :
    dictFind k (dictInsert k e v) = some e := by
  induction v with
  | nil => simp [dictInsert, dictFind]
  | cons p rest ih =>
      by_cases h : p.1 = k
      · simp [dictInsert, h, dictFind]
      · simp [dictInsert, h, dictFind, ih]

theorem dictFind_eq_none_of_not_mem_keys (k : String) (v : Vault)
    (h : k ∉ keys v) : dictFind k v = none := by
  induction v with
  | nil => simp [dictFind]
  | cons p rest ih =>
      rw [keys_cons, List.mem_cons] at h
      push_neg at h
      simp [dictFind, Ne.symm h.1, ih h.2]

theorem dictFind_dictErase_self (k : String) (v : Vault)
    (h : (keys v).Nodup) : dictFind k (dictErase k v) = none := by
  induction v with
  | nil => simp [dictErase, dictFind]
  | cons p rest ih =>
      rw [keys_cons, List.nodup_cons] at h
      by_cases hpk : p.1 = k
      · rw [← hpk]
        simpa [dictErase, hpk] using dictFind_eq_none_of_not_mem_keys p.1 rest h.1
      · simp [dictErase, hpk, dictFind, ih h.2]

theorem keys_dictInsert (k : String) (e : Entry) (v : Vault) :
    keys (dictInsert k e v) = if k ∈ keys v then keys v else keys v ++ [k] := by
  induction v with
  | nil => simp [dictInsert, keys]
  | cons p rest ih =>
      by_cases h : p.1 = k
      · simp [dictInsert, keys_cons, h]
      · rw [show dictInsert k e (p :: rest) = p :: dictInsert k e rest by
              simp [dictInsert, h],
            keys_cons, keys_cons, ih]
        by_cases h2 : k ∈ keys rest
        · rw [if_pos h2, if_pos (List.mem_cons_of_mem _ h2)]
        · rw [if_neg h2, if_neg (by simp [List.mem_cons, Ne.symm h, h2]), List.cons_append]

theorem nodup_keys_dictInsert (k : String) (e : Entry) (v : Vault)
    (h : (keys v).Nodup) : (keys (dictInsert k e v)).Nodup := by
  rw [keys_dictInsert]
  split_ifs with hmem
  · exact h
  · simp [List.nodup_append, h, hmem]

theorem keys_dictInsert_toFinset (k : String) (e : Entry) (v : Vault) :
    (keys (dictInsert k e v)).toFinset = insert k (keys v).toFinset := by
  rw [keys_dictInsert]
  split_ifs with hmem
  · rw [Finset.insert_eq_self.mpr (by simpa using hmem)]
  · ext x
    simp [or_comm]

/-! ### Store-state lemmas -/

/-- The entry that `save_hash` builds for the given arguments. -/
def mkEntry (H : HashFn) (label text algorithm timestamp : String) : Entry :=
  { label := label, algorithm := algorithm, hash := H algorithm (utf8Bytes text),
    length := text.length, timestamp := timestamp }

theorem load_vault_save_hash (H : HashFn) (label text a ts : String) (fs : FS)
    (ha : a ∈ ALGORITHMS) :
    load_vault (save_hash H label text a ts fs).2 =
      dictInsert label (mkEntry H label text a ts) (load_vault fs) := by
  simp [save_hash, compute_hash, ha, load_vault, save_vault, mkEntry]

theorem dictFind_isSome_iff_mem_keys (k : String) (v : Vault) :
    (dictFind k v).isSome = true ↔ k ∈ keys v := by
  induction v with
  | nil => simp [dictFind, keys_nil]
  | cons p rest ih =>
      by_cases h : p.1 = k
      · simp [dictFind, h, keys_cons]
      · simp [dictFind, h, keys_cons, ih, Ne.symm h]

theorem dictErase_of_not_mem_keys (k : String) (v : Vault)
    (h : k ∉ keys v) : dictErase k v = v := by
  induction v with
  | nil => rfl
  | cons p rest ih =>
      rw [keys_cons, List.mem_cons] at h
      push_neg at h
      simp [dictErase, Ne.symm h.1, ih h.2]

theorem keys_dictErase (k : String) (v : Vault) :
    keys (dictErase k v) = (keys v).erase k := by
  induction v with
  | nil => rfl
  | cons p rest ih =>
      by_cases h : p.1 = k
      · simp [dictErase, h, keys_cons, List.erase_cons, beq_iff_eq]
      · simp [dictErase, h, keys_cons, List.erase_cons, beq_iff_eq, ih]

theorem nodup_keys_dictErase (k : String) (v : Vault)
    (h : (keys v).Nodup) : (keys (dictErase k v)).Nodup := by
  rw [keys_dictErase]
  exact h.erase k

theorem keys_dictErase_toFinset (k : String) (v : Vault)
    (h : (keys v).Nodup) :
    (keys (dictErase k v)).toFinset = (keys v).toFinset.erase k := by
  rw [keys_dictErase]
  ext x
  simp [h.mem_erase_iff, Finset.mem_erase]

theorem load_vault_delete_snapshot (l : String) (fs : FS) :
    load_vault (delete_snapshot l fs).2 = dictErase l (load_vault fs) := by
  by_cases h : (dictFind l (load_vault fs)).isSome = true
  · have h2 : (dictFind l (fs.file.getD [])).isSome = true := h
    simp [delete_snapshot, load_vault, save_vault, h2]
  · have hmem : l ∉ keys (load_vault fs) := by
      rw [← dictFind_isSome_iff_mem_keys]
      simpa using h
    have h2 : (dictFind l (fs.file.getD [])).isSome = false := by
      simpa using h
    rw [dictErase_of_not_mem_keys _ _ hmem]
    simp [delete_snapshot, load_vault, h2]

theorem runOps_invariant (H : HashFn) (ops : List Op) (fs : FS)
    (hvalid : ∀ op ∈ ops, opAlgOk op)
    (h : (keys (load_vault fs)).Nodup) :
    (keys (load_vault (runOps H ops fs))).Nodup ∧
    (keys (load_vault (runOps H ops fs))).toFinset =
      liveLabels ops (keys (load_vault fs)).toFinset := by
  induction ops generalizing fs with
  | nil => exact ⟨h, rfl⟩
  | cons op rest ih =>
      cases op with
      | save s =>
          have ha : s.algorithm ∈ ALGORITHMS := hvalid _ (List.mem_cons_self _ _)
          have hload := load_vault_save_hash H s.label s.text s.algorithm s.timestamp fs ha
          have h2 : (keys (load_vault
              (save_hash H s.label s.text s.algorithm s.timestamp fs).2)).Nodup := by
            rw [hload]
            exact nodup_keys_dictInsert _ _ _ h
          obtain ⟨hn, hf⟩ := ih _ (fun x hx => hvalid x (List.mem_cons_of_mem _ hx)) h2
          refine ⟨hn, ?_⟩
          rw [runOps] at *
          rw [hf, hload, keys_dictInsert_toFinset]
          rfl
      | del l =>
          have h2 : (keys (load_vault (delete_snapshot l fs).2)).Nodup := by
            rw [load_vault_delete_snapshot]
            exact nodup_keys_dictErase _ _ h
          obtain ⟨hn, hf⟩ := ih _ (fun x hx => hvalid x (List.mem_cons_of_mem _ hx)) h2
          refine ⟨hn, ?_⟩
          rw [runOps] at *
          rw [hf, load_vault_delete_snapshot, keys_dictErase_toFinset _ _ h]
          rfl

/-- A concrete stand-in digest primitive for instantiating the theorems. -/
def testHash : HashFn :=
  fun a bs => a ++ "-" ++ toString bs

/-- A concrete call sequence: two saves under one label, a save under a
second label, and a delete of the second label. -/
def demoOps : List Op :=
  [Op.save { label := "doc", text := "t", algorithm := "sha256", timestamp := "T1" },
   Op.save { label := "doc", text := "u", algorithm := "md5", timestamp := "T2" },
   Op.save { label := "cfg", text := "c", algorithm := "sha1", timestamp := "T3" },
   Op.del "cfg"]

/-- A concrete storage state holding one snapshot. -/
def demoFS : FS :=
  (save_hash testHash "doc" "t" "sha256" "T1" emptyFS).2

theorem utf8Bytes_empty : utf8Bytes "" = [] := rfl

/-- Shared core: verifying the very text just saved yields the INTACT report,
recomputed under the algorithm stored in the record. -/
theorem verify_text_after_save (H : HashFn) (label text a ts : String) (fs : FS)
    (ha : a ∈ ALGORITHMS) :
    verify_text H label text (save_hash H label text a ts fs).2 =
      Except.ok (VerifyResult.checked "INTACT" label a
        (H a (utf8Bytes text)) (H a (utf8Bytes text))
        text.length text.length ts true) := by
  rw [verify_text]
  simp only [load_vault_save_hash H label text a ts fs ha,
    dictFind_dictInsert_self, mkEntry]
  simp [compute_hash, ha]

/-! ### The claims -/

/-- C1: for every label, text and algorithm in the enumerated set, `save_hash`
followed by `verify_text` (no intervening store mutation) returns the INTACT
report with `is_intact = true`, and the recomputation uses the algorithm
stored in the record: both hashes in the report are digests under `a`. -/
theorem save_then_verify_intact (H : HashFn) (label text a ts : String) (fs : FS)
    (ha : a ∈ ALGORITHMS) :
    verify_text H label text (save_hash H label text a ts fs).2 =
      Except.ok (VerifyResult.checked "INTACT" label a
        (H a (utf8Bytes text)) (H a (utf8Bytes text))
        text.length text.length ts true) :=
  verify_text_after_save H label text a ts fs ha

theorem save_then_verify_intact_witness :
    verify_text testHash "doc" "t" (save_hash testHash "doc" "t" "sha256" "T1" emptyFS).2 =
      Except.ok (VerifyResult.checked "INTACT" "doc" "sha256"
        (testHash "sha256" (utf8Bytes "t")) (testHash "sha256" (utf8Bytes "t"))
        ("t".length) ("t".length) "T1" true) :=
  save_then_verify_intact testHash "doc" "t" "sha256" "T1" emptyFS (by decide)

/-- C3: verifying a label absent from the store returns the NOT_FOUND result
carrying the label inside a human-readable message, and performs no hash
computation of the supplied text: the result does not depend on the text or
on the digest primitive. -/
theorem verify_absent_not_found (H Hp : HashFn) (label text textp : String) (fs : FS)
    (habs : dictFind label (load_vault fs) = none) :
    verify_text H label text fs =
      Except.ok (VerifyResult.notFound "NOT_FOUND"
        ("No snapshot found for label " ++ quoted label)) ∧
    verify_text H label text fs = verify_text Hp label textp fs := by
  constructor <;> simp [verify_text, habs]

theorem verify_absent_not_found_witness :
    verify_text testHash "ghost" "x" emptyFS =
      Except.ok (VerifyResult.notFound "NOT_FOUND"
        ("No snapshot found for label " ++ quoted "ghost")) ∧
    verify_text testHash "ghost" "x" emptyFS =
      verify_text (fun _ _ => "other") "ghost" "y" emptyFS :=
  verify_absent_not_found testHash (fun _ _ => "other") "ghost" "x" "y" emptyFS (by decide)

/-- C4: `compute_hash` errors exactly on algorithms outside the enumerated
set; on algorithms in the set it returns the digest of the UTF-8 encoding of
the text, and the empty string yields the digest of the empty byte input. -/
theorem compute_hash_contract (H : HashFn) (text algorithm : String) :
    ((∃ e, compute_hash H text algorithm = Except.error e) ↔ algorithm ∉ ALGORITHMS) ∧
    (algorithm ∈ ALGORITHMS →
      compute_hash H text algorithm = Except.ok (H algorithm (utf8Bytes text))) ∧
    (algorithm ∈ ALGORITHMS →
      compute_hash H "" algorithm = Except.ok (H algorithm [])) := by
  by_cases h : algorithm ∈ ALGORITHMS <;>
    simp [compute_hash, h, utf8Bytes_empty]

theorem compute_hash_contract_witness :
    ((∃ e, compute_hash testHash "x" "sha999" = Except.error e) ↔ "sha999" ∉ ALGORITHMS) ∧
    ("sha999" ∈ ALGORITHMS →
      compute_hash testHash "x" "sha999" = Except.ok (testHash "sha999" (utf8Bytes "x"))) ∧
    ("sha999" ∈ ALGORITHMS →
      compute_hash testHash "" "sha999" = Except.ok (testHash "sha999" [])) :=
  compute_hash_contract testHash "x" "sha999"

/-- C6: `load_vault` returns the empty mapping when no backing file exists,
and a `save_vault` of any mapping followed by `load_vault` (with no
intervening write) returns exactly that mapping. -/
theorem store_load_roundtrip (fs fsp : FS) (m : Vault) (hnone : fs.file = none) :
    load_vault fs = [] ∧ load_vault (save_vault m fsp) = m :=
  ⟨by simp [load_vault, hnone], by simp [load_vault, save_vault]⟩

theorem store_load_roundtrip_witness :
    load_vault emptyFS = [] ∧
    load_vault (save_vault (load_vault demoFS) demoFS) = load_vault demoFS :=
  store_load_roundtrip emptyFS demoFS (load_vault demoFS) rfl

/-- C7: `compare_texts` never touches the snapshot store (the threaded state
is returned unchanged), its `identical` flag holds exactly when the two
computed hash strings are equal, and comparing a text with itself always
yields `identical = true`. -/
theorem compare_texts_contract (H : HashFn) (t1 t2 t a : String) (fs : FS)
    (ha : a ∈ ALGORITHMS) :
    (compare_texts_st H t1 t2 a fs).2 = fs ∧
    (∀ r, compare_texts H t1 t2 a = Except.ok r →
      (r.identical = true ↔ r.hash_1 = r.hash_2)) ∧
    (∃ r, compare_texts H t t a = Except.ok r ∧ r.identical = true) := by
  refine ⟨rfl, ?_, ?_⟩
  · intro r hr
    simp [compare_texts, compute_hash, ha] at hr
    subst hr
    simp
  · refine ⟨{ algorithm := a, hash_1 := H a (utf8Bytes t),
              hash_2 := H a (utf8Bytes t),
              identical := H a (utf8Bytes t) == H a (utf8Bytes t),
              length_1 := t.length, length_2 := t.length }, ?_, ?_⟩
    · simp [compare_texts, compute_hash, ha]
    · simp

theorem compare_texts_contract_witness :
    (compare_texts_st testHash "t" "u" "sha256" demoFS).2 = demoFS ∧
    (∀ r, compare_texts testHash "t" "u" "sha256" = Except.ok r →
      (r.identical = true ↔ r.hash_1 = r.hash_2)) ∧
    (∃ r, compare_texts testHash "same" "same" "sha256" = Except.ok r ∧
      r.identical = true) :=
  compare_texts_contract testHash "t" "u" "same" "sha256" demoFS (by decide)

/-- C8: `compute_all_hashes` succeeds with a mapping whose key list is
exactly the enumerated algorithm list, and whose value at each algorithm is
`compute_hash` of the text under that algorithm. -/
theorem compute_all_hashes_contract (H : HashFn) (text : String) :
    ∃ m, compute_all_hashes H text = Except.ok m ∧
      m.map Prod.fst = ALGORITHMS ∧
      ∀ p ∈ m, compute_hash H text p.1 = Except.ok p.2 := by
  refine ⟨ALGORITHMS.map (fun algo => (algo, H algo (utf8Bytes text))), rfl, rfl, ?_⟩
  intro p hp
  simp [ALGORITHMS] at hp
  rcases hp with h | h | h | h <;> subst h <;> rfl

/-- C9: a `save_hash` call with an algorithm outside the enumerated set
errors before any write: the returned storage state is exactly the state
before the call. -/
theorem save_hash_invalid_leaves_store (H : HashFn) (label text a ts : String)
    (fs : FS) (ha : a ∉ ALGORITHMS) :
    (save_hash H label text a ts fs).1 = Except.error unsupportedMsg ∧
    (save_hash H label text a ts fs).2 = fs := by
  constructor <;> simp [save_hash, compute_hash, ha]

theorem save_hash_invalid_leaves_store_witness :
    (save_hash testHash "doc" "t" "sha3" "T9" demoFS).1 =
      Except.error unsupportedMsg ∧
    (save_hash testHash "doc" "t" "sha3" "T9" demoFS).2 = demoFS :=
  save_hash_invalid_leaves_store testHash "doc" "t" "sha3" "T9" demoFS (by decide)

/-- C10: the empty-string label is accepted: `save_hash` with label `""`
succeeds and stores the record under key `""`, and a subsequent
`verify_text` with label `""` returns the INTACT report. -/
theorem empty_label_accepted (H : HashFn) (text a ts : String) (fs : FS)
    (ha : a ∈ ALGORITHMS) :
    (save_hash H "" text a ts fs).1 = Except.ok (mkEntry H "" text a ts) ∧
    dictFind "" (load_vault (save_hash H "" text a ts fs).2) =
      some (mkEntry H "" text a ts) ∧
    verify_text H "" text (save_hash H "" text a ts fs).2 =
      Except.ok (VerifyResult.checked "INTACT" "" a
        (H a (utf8Bytes text)) (H a (utf8Bytes text))
        text.length text.length ts true) := by
  refine ⟨by simp [save_hash, compute_hash, ha, mkEntry], ?_, ?_⟩
  · rw [load_vault_save_hash H "" text a ts fs ha]
    exact dictFind_dictInsert_self _ _ _
  · exact verify_text_after_save H "" text a ts fs ha

theorem empty_label_accepted_witness :
    (save_hash testHash "" "t" "sha256" "T1" emptyFS).1 =
      Except.ok (mkEntry testHash "" "t" "sha256" "T1") ∧
    dictFind "" (load_vault (save_hash testHash "" "t" "sha256" "T1" emptyFS).2) =
      some (mkEntry testHash "" "t" "sha256" "T1") ∧
    verify_text testHash "" "t" (save_hash testHash "" "t" "sha256" "T1" emptyFS).2 =
      Except.ok (VerifyResult.checked "INTACT" "" "sha256"
        (testHash "sha256" (utf8Bytes "t")) (testHash "sha256" (utf8Bytes "t"))
        ("t".length) ("t".length) "T1" true) :=
  empty_label_accepted testHash "t" "sha256" "T1" emptyFS (by decide)

/-- C2: the store never holds two records for the same label (after any
sequence of valid saves and deletes from first use, the key list has no
duplicates); a second save under the same label fully replaces the prior
record, so only the latest is retrievable; and the `list_snapshots` count
equals the number of distinct labels saved and not yet deleted, not the
number of save calls. -/
theorem save_replaces_and_counts (H : HashFn) (ops : List Op)
    (hvalid : ∀ op ∈ ops, opAlgOk op)
    (label t1 a1 ts1 t2 a2 ts2 : String) (fs : FS)
    (_ha1 : a1 ∈ ALGORITHMS) (ha2 : a2 ∈ ALGORITHMS) :
    (keys (load_vault (runOps H ops emptyFS))).Nodup ∧
    (list_snapshots (runOps H ops emptyFS)).length = (liveLabels ops ∅).card ∧
    dictFind label (load_vault
        (save_hash H label t2 a2 ts2 (save_hash H label t1 a1 ts1 fs).2).2) =
      some (mkEntry H label t2 a2 ts2) := by
  have hempty : (keys (load_vault emptyFS)).Nodup := by
    simp [load_vault, emptyFS, keys]
  obtain ⟨hn, hf⟩ := runOps_invariant H ops emptyFS hvalid hempty
  refine ⟨hn, ?_, ?_⟩
  · have hlen : (list_snapshots (runOps H ops emptyFS)).length =
        (keys (load_vault (runOps H ops emptyFS))).length := by
      simp [list_snapshots, keys]
    rw [hlen, ← List.toFinset_card_of_nodup hn, hf]
    have : (keys (load_vault emptyFS)).toFinset = (∅ : Finset String) := by
      simp [load_vault, emptyFS, keys]
    rw [this]
  · rw [load_vault_save_hash H label t2 a2 ts2 _ ha2]
    exact dictFind_dictInsert_self _ _ _

theorem save_replaces_and_counts_witness :
    ((keys (load_vault (runOps testHash demoOps emptyFS))).Nodup ∧
     (list_snapshots (runOps testHash demoOps emptyFS)).length =
       (liveLabels demoOps ∅).card ∧
     dictFind "doc" (load_vault
         (save_hash testHash "doc" "u" "md5" "T2"
           (save_hash testHash "doc" "t" "sha256" "T1" emptyFS).2).2) =
       some (mkEntry testHash "doc" "u" "md5" "T2")) ∧
    (liveLabels demoOps ∅).card = 1 :=
  ⟨save_replaces_and_counts testHash demoOps (by decide)
      "doc" "t" "sha256" "T1" "u" "md5" "T2" emptyFS (by decide) (by decide),
   by decide⟩

/-- C5: deleting a present label removes its record, persists the shrunk
mapping (one more completed write), and returns true; deleting an absent
label returns false and leaves the storage state exactly as it was. -/
theorem delete_snapshot_contract (label : String) (fs : FS)
    (hnodup : (keys (load_vault fs)).Nodup) :
    ((dictFind label (load_vault fs)).isSome = true →
      delete_snapshot label fs =
        (true, save_vault (dictErase label (load_vault fs)) fs) ∧
      dictFind label (load_vault (delete_snapshot label fs).2) = none ∧
      (delete_snapshot label fs).2.writes = fs.writes + 1) ∧
    (dictFind label (load_vault fs) = none →
      delete_snapshot label fs = (false, fs)) := by
  constructor
  · intro hpres
    have heq : delete_snapshot label fs =
        (true, save_vault (dictErase label (load_vault fs)) fs) := by
      simp [delete_snapshot, hpres]
    refine ⟨heq, ?_, by rw [heq]; rfl⟩
    rw [heq]
    simpa [load_vault, save_vault] using dictFind_dictErase_self label _ hnodup
  · intro habs
    simp [delete_snapshot, habs]

theorem delete_snapshot_contract_witness :
    (((dictFind "doc" (load_vault demoFS)).isSome = true →
      delete_snapshot "doc" demoFS =
        (true, save_vault (dictErase "doc" (load_vault demoFS)) demoFS) ∧
      dictFind "doc" (load_vault (delete_snapshot "doc" demoFS).2) = none ∧
      (delete_snapshot "doc" demoFS).2.writes = demoFS.writes + 1) ∧
    (dictFind "doc" (load_vault demoFS) = none →
      delete_snapshot "doc" demoFS = (false, demoFS))) ∧
    (dictFind "doc" (load_vault demoFS)).isSome = true :=
  ⟨delete_snapshot_contract "doc" demoFS (by decide), by decide⟩

end HashGuardian
